import Mathlib

/-!
Verification of the jevalide validation library against its specification.

This file shallowly embeds the rule-execution engine (src/validation/validation.ts,
class Validation), the built-in rule callbacks it runs (src/rules), the locale
catalog (src/locale/local.ts with src/locale/lang/en.ts and fr.ts), the message
resolver (src/messages/messages.ts) and the form aggregator
(src/validation/form-validator.ts, class FormValidator).

Conventions of the embedding:
- JavaScript values are modelled by the inductive JSValue below.  File, Blob and
  FileList values are not representable; on every representable value the source
  predicate isFile returns passes = false, which is what isFilePasses encodes.
- JavaScript numbers are modelled by Int plus an explicit nan marker.  The
  claims under verification only exercise integer numerics; fractional literals
  parse to nan in this model, which no embedded call site reaches.
- Code that can throw (rule callbacks, Validation.validate, FormValidator
  methods that validate) is embedded in Except String.
- Records (plain JS objects used as maps) are association lists that keep JS
  insertion-order semantics: assigning to an existing key updates it in place,
  assigning to a new key appends it.
-/

namespace Jev

/-- Model of the JavaScript values flowing through the validator. -/
inductive JSValue where
  | str (s : String)
  | num (n : Int)
  | nan
  | bool (b : Bool)
  | null
  | undefined
  | arr (elems : List JSValue)
  | obj (fields : List (String × JSValue))

/-- The InputType union from src/contracts (text, date, boolean, number, file, date-local). -/
inductive InputType where
  | text
  | date
  | boolean
  | number
  | file
  | dateLocal
deriving DecidableEq, BEq

/-- Printable name of an input type, used only to observe what a callback received. -/
def InputType.render : InputType → String
  | .text => "text"
  | .date => "date"
  | .boolean => "boolean"
  | .number => "number"
  | .file => "file"
  | .dateLocal => "date-local"

/-- The ValidationState record returned by every rule callback
(src/contracts: passes, value, alias?, type?).  The alias field is named
aliasName here because alias is a reserved command name in Lean. -/
structure ValidationState where
  passes : Bool
  value : JSValue
  aliasName : Option String
  type : Option InputType

/-- A rule callback (value, param?, typeHint?) -> ValidationState.  Callbacks may
throw (e.g. minRule on a non numeric bound), hence Except. -/
abbrev RuleCallBack : Type :=
  JSValue → JSValue → InputType → Except String ValidationState

/-- Whitespace recognised by the model of String.prototype.trim. -/
def isWsChar (c : Char) : Bool :=
  c == ' ' || c == '\t' || c == '\n' || c == '\r'

/-- Drop leading whitespace characters. -/
def dropWs : List Char → List Char
  | [] => []
  | c :: rest => if isWsChar c then dropWs rest else c :: rest

/-- Model of String.prototype.trim over the character list of a string. -/
def trimChars (l : List Char) : List Char :=
  ((dropWs ((dropWs l.reverse)).reverse)).reverse.reverse

/-- Parse a non-empty all-digit character list to a natural number. -/
def digitsToNat : List Char → Option Nat
  | [] => none
  | [c] => if c.isDigit then some (c.toNat - 48) else none
  | c :: rest =>
    if c.isDigit then
      match digitsToNat rest with
      | some n => some ((c.toNat - 48) * 10 ^ rest.length + n)
      | none => none
    else none

/-- Model of the JS Number() coercion on strings, restricted to the integer
fragment the repository exercises (optional sign, decimal digits, surrounding
whitespace).  Returns none for NaN. -/
def parseNumeric (s : String) : Option Int :=
  match trimChars s.data with
  | [] => some 0
  | '-' :: rest => (digitsToNat rest).map (fun n => -(n : Int))
  | '+' :: rest => (digitsToNat rest).map (fun n => (n : Int))
  | l => (digitsToNat l).map (fun n => (n : Int))

/-- Model of the JS Number() coercion; none stands for NaN.  Arrays and plain
objects are never coerced at a decisive call site of the embedded code (each is
guarded by a typeof check first); the empty array gives the exact JS result 0
and other composites conservatively map to NaN. -/
def jsNumber : JSValue → Option Int
  | .num n => some n
  | .nan => none
  | .bool b => some (if b then 1 else 0)
  | .null => some 0
  | .undefined => none
  | .str s => parseNumeric s
  | .arr [] => some 0
  | .arr (_ :: _) => none
  | .obj _ => none

/-- The JSValue holding Number(v): the numeric result, or the NaN marker. -/
def numValue (v : JSValue) : JSValue :=
  match jsNumber v with
  | some n => .num n
  | none => .nan

/-- Model of String()/toString() for the scalar values the claims stringify.
Arrays are never stringified by any embedded call site (rule parameters are
scalars), so they map to the empty string. -/
def jsToString : JSValue → String
  | .str s => s
  | .num n => toString n
  | .nan => "NaN"
  | .bool b => if b then "true" else "false"
  | .null => "null"
  | .undefined => "undefined"
  | .arr _ => ""
  | .obj _ => "[object Object]"

/-- Model of the optional-chained oParams?.toString() ?? Nothing pattern used by
Messages.parseMessage: null and undefined give the empty string. -/
def jsToStringOpt : JSValue → String
  | .null => ""
  | .undefined => ""
  | v => jsToString v

/-- Accumulator version of splitting a character list on commas. -/
def splitCommaAux : List Char → List Char → List String
  | [], acc => [String.mk acc.reverse]
  | c :: rest, acc =>
    if c == ',' then String.mk acc.reverse :: splitCommaAux rest []
    else splitCommaAux rest (c :: acc)

/-- Modelled from the spec: the utility spliteParam (src/utils, a file not
included in this copy of the repository) splits a rule parameter payload on
commas, mirroring JS String.prototype.split: the empty string yields one empty
chunk. -/
def spliteParam (s : String) : List String :=
  splitCommaAux s.data []

/-- Lookup in an insertion-ordered association list (JS object read). -/
def alistLookup (l : List (String × String)) (k : String) : Option String :=
  match l with
  | [] => none
  | (k2, v) :: rest => if k2 == k then some v else alistLookup rest k

/-- Assignment into an insertion-ordered association list (JS object write):
update the existing key in place, else append. -/
def alistSet (l : List (String × String)) (k v : String) : List (String × String) :=
  match l with
  | [] => [(k, v)]
  | (k2, v2) :: rest =>
    if k2 == k then (k2, v) :: rest else (k2, v2) :: alistSet rest k v

/-- The JS object spread merge spread a then spread b: keys of a in order with
values overridden by b, then new keys of b appended. -/
def alistOverlay (a b : List (String × String)) : List (String × String) :=
  b.foldl (fun acc kv => alistSet acc kv.1 kv.2) a

/-- The required rule callback (src/rules/global.ts).  Branch order follows the
source: arrays, non-null objects, strings, numbers, booleans, then the residual
null / undefined case. -/
def required : RuleCallBack := fun input _ _ =>
  match input with
  | .arr a => .ok ⟨decide (a.length > 0), .arr a, none, none⟩
  | .obj f => .ok ⟨decide (f.length > 0), .obj f, none, none⟩
  | .str s => .ok ⟨decide ((trimChars s.data).length > 0), .str s, none, none⟩
  | .num n => .ok ⟨true, .num n, none, none⟩
  | .nan => .ok ⟨true, .nan, none, none⟩
  | .bool b => .ok ⟨true, .bool b, none, none⟩
  | .null => .ok ⟨false, .null, none, none⟩
  | .undefined => .ok ⟨false, .undefined, none, none⟩

/-- The nullable rule callback (src/rules/global.ts): always passes, value unchanged. -/
def nullable : RuleCallBack := fun input _ _ =>
  .ok ⟨true, input, none, none⟩

/-- The pure body of the isNumber rule callback (src/rules/number.ts).  The
final branch computes !isNaN(Number(input)) with the typeof boolean / object
exclusions of the source. -/
def isNumberState (input : JSValue) : ValidationState :=
  match input with
  | .str "" => ⟨false, .str "", none, none⟩
  | .null => ⟨false, .null, none, none⟩
  | .undefined => ⟨false, .undefined, none, none⟩
  | .str "0" => ⟨true, .num 0, none, some .number⟩
  | .num 0 => ⟨true, .num 0, none, some .number⟩
  | .str "1" => ⟨true, .num 1, none, some .number⟩
  | .num 1 => ⟨true, .num 1, none, some .number⟩
  | .bool b => ⟨false, numValue (.bool b), none, some .number⟩
  | .arr a => ⟨false, numValue (.arr a), none, some .number⟩
  | .obj f => ⟨false, numValue (.obj f), none, some .number⟩
  | v => ⟨(jsNumber v).isSome, numValue v, none, some .number⟩

/-- The isNumber rule callback, registered in the bag as number and numeric. -/
def isNumber : RuleCallBack := fun input _ _ =>
  .ok (isNumberState input)

/-- The pure body of the minlength rule callback (src/rules/string.ts):
strings compare their length against Number(length), everything else fails.
A NaN bound makes the JS comparison false. -/
def minlengthState (input len : JSValue) : ValidationState :=
  match input with
  | .str s =>
    ⟨(match jsNumber len with
      | some m => decide ((s.length : Int) ≥ m)
      | none => false), .str s, none, none⟩
  | v => ⟨false, v, none, none⟩

/-- The minlength rule callback. -/
def minlength : RuleCallBack := fun input len _ =>
  .ok (minlengthState input len)

/-- The isFile predicate (src/rules/file.ts) restricted to the representable
values: with no File, Blob or FileList constructors in JSValue, the source
computes false on every input (the empty array fails the length test and a
non-empty array has no File elements). -/
def isFilePasses (_ : JSValue) : Bool := false

/-- The minRule callback (src/rules/number.ts, bag name min).  The file branch
is reached only when the declared type is file; minFileSize then fails on every
representable (non-file) value, which the branch encodes directly. -/
def minRule : RuleCallBack := fun input minP type =>
  if !(isNumberState minP).passes then
    .error "Min rule parameter must be an integer"
  else if isFilePasses input || type == InputType.file then
    .ok ⟨false, input, none, none⟩
  else
    let input2 :=
      match input with
      | .undefined => JSValue.num 0
      | .null => JSValue.num 0
      | v => v
    if (isNumberState input2).passes then
      .ok ⟨decide ((jsNumber input2).getD 0 ≥ (jsNumber minP).getD 0),
           numValue input2, none, none⟩
    else
      .ok ⟨(minlengthState input2 minP).passes, input2, some "minlength", none⟩

/-- The English message catalog (src/locale/lang/en.ts), in source order. -/
def en_messages : List (String × String) := [
  ("default", "This field is invalid"),
  ("required", "This field is required"),
  ("email", "Please enter a valid email address"),
  ("maxlength", "The maximum number of allowed characters is: :arg0"),
  ("minlength", "The minimum number of allowed characters is: :arg0"),
  ("min", "The :field field must be greater than or equal to \x27:arg0\x27"),
  ("max", "The :field field must be less than or equal to \x27:arg0\x27"),
  ("string", "Please enter a string of characters"),
  ("between", "The value of this field must be between \x27:arg0\x27 and \x27:arg1\x27"),
  ("startWith", "The :field field must start with \x27:arg0\x27"),
  ("endWith", "The :field field must end with \x27:arg0\x27"),
  ("contains", "The :field field must contain the value \x27:arg0\x27"),
  ("in", "Please choose a correct value for the :field field"),
  ("integer", "The :field field must be an integer"),
  ("int", "The :field field must be an integer"),
  ("number", "This field must be a number"),
  ("numeric", "This field must be a number"),
  ("file", "This field must be a file"),
  ("url", "This field must be a valid URL"),
  ("length", "The length of this field must be :arg0"),
  ("len", "The length of this field must be :arg0"),
  ("maxFileSize", "The file size must be less than :arg0."),
  ("minFileSize", "The file size must be greater than :arg0."),
  ("size", "The size of this field must be less than or equal to :arg0"),
  ("boolean", "This field must be a boolean (yes or no)"),
  ("startWithUpper", "This field must start with an uppercase letter"),
  ("startWithLower", "This field must start with a lowercase letter"),
  ("nullable", ""),
  ("password", "The password must be at least 8 characters long and include an uppercase letter, a lowercase letter, a digit, and a special character."),
  ("date", "This field must be a valid date"),
  ("before", "The date must be before (:arg0)"),
  ("after", "The date must be after (:arg0)"),
  ("same", "This field must be identical to the value of the :arg0 field"),
  ("requiredIf", "The :field field is required when the :arg0 field has the current value"),
  ("requiredWhen", "The :field field is required when the :arg0 fields are present"),
  ("phone", "This phone number seems to be invalid"),
  ("time", "The :field field must be a valid time."),
  ("startWithString", "The :field field must start with a letter"),
  ("endWithString", "The :field field must end with a letter"),
  ("excludes", "The :field field must not contain :arg0."),
  ("hasLetter", "This field must contain at least one letter"),
  ("regex", "This field is invalid."),
  ("lower", "This field must be lowercase"),
  ("upper", "This field must be uppercase"),
  ("fileBetween", "File size must be between :arg0 and :arg1"),
  ("stringBetween", "The number of characters allowed must be between :arg0 and :arg1"),
  ("modulo", "The value of :field field must be a multiple of :arg0"),
  ("mod", "The value of :field field must be a multiple of :arg0"),
  ("only", "The format of this field is not accepted, as it contains non-allowed characters"),
  ("mimes", "This file format is not supported"),
  ("digit", "This field must be a numeric value with exactly :arg0 digits"),
  ("minDigit", "This field must be a numeric value with a minimum of :arg0 digits"),
  ("maxDigit", "This field must be a numeric value with a maximum of :arg0 digits"),
  ("lessThan", "This field must be a numeric value less than :arg0"),
  ("lthan", "This field must be a numeric value less than :arg0"),
  ("greaterThan", "This field must be a numeric value greater than :arg0"),
  ("gthan", "This field must be a numeric value greater than :arg0"),
  ("dateBetween", "The date must be between :arg0 and :arg1"),
  ("numberBetween", "This field must be a numeric value between :arg0 and :arg1"),
  ("equal", "This field must be exactly equal to :arg0"),
  ("object", "This field must be a valid object"),
  ("array", "This field must be a valid array"),
  ("json", "This field must be a valid JSON string")]

/-- The French message catalog (src/locale/lang/fr.ts), in source order. -/
def fr_messages : List (String × String) := [
  ("default", "Ce champ est invalide"),
  ("required", "Ce champ est obligatoire"),
  ("email", "Veuillez saisir une adresse e-mail valide"),
  ("maxlength", "Le nombre maximum de caractères autorisés est : :arg0"),
  ("minlength", "Le nombre minimum de caractères requis est : :arg0"),
  ("min", "Le champ :field doit être supérieur ou égal à \x27:arg0\x27"),
  ("max", "Le champ :field doit être inférieur ou égal à \x27:arg0\x27"),
  ("string", "Veuillez saisir une chaîne de caractères"),
  ("between", "La valeur de ce champ doit être comprise entre \x27:arg0\x27 et \x27:arg1\x27"),
  ("startWith", "Le champ :field doit commencer par \x27:arg0\x27"),
  ("endWith", "Le champ :field doit se terminer par \x27:arg0\x27"),
  ("contains", "Le champ :field doit contenir la valeur \x27:arg0\x27"),
  ("in", "Veuillez choisir une valeur correcte pour le champ :field"),
  ("integer", "Le champ :field doit être un nombre entier"),
  ("int", "Le champ :field doit être un nombre entier"),
  ("number", "Ce champ doit être un nombre"),
  ("numeric", "Ce champ doit être un nombre"),
  ("file", "Ce champ doit être un fichier"),
  ("url", "Ce champ doit être une URL valide"),
  ("length", "La longueur de ce champ doit être de :arg0"),
  ("len", "La longueur de ce champ doit être de :arg0"),
  ("maxFileSize", "La taille du fichier doit être inférieure à :arg0"),
  ("minFileSize", "La taille du fichier doit être supérieure à :arg0"),
  ("size", "La taille de ce champ doit être inférieure ou égale à :arg0"),
  ("boolean", "Ce champ doit être un booléen (oui ou non)"),
  ("startWithUpper", "Ce champ doit commencer par une lettre majuscule"),
  ("startWithLower", "Ce champ doit commencer par une lettre minuscule"),
  ("nullable", ""),
  ("password", "Le mot de passe doit contenir au moins 8 caractères, une majuscule, une minuscule, un chiffre et un caractère spécial"),
  ("date", "Ce champ doit être une date valide"),
  ("before", "La date doit être antérieure à (:arg0)"),
  ("after", "La date doit être postérieure à (:arg0)"),
  ("same", "Ce champ doit être identique à la valeur du champ :arg0"),
  ("equal", "Ce champ doit être strictement égal à :arg0"),
  ("requiredIf", "Le champ :field est requis lorsque le champ :arg0 a la valeur actuelle"),
  ("requiredWhen", "Le champ :field est requis lorsque les champs :arg0 sont présents"),
  ("phone", "Ce numéro de téléphone semble invalide"),
  ("time", "Le champ :field doit être une heure valide"),
  ("startWithString", "Le champ :field doit commencer par une lettre"),
  ("endWithString", "Le champ :field doit se terminer par une lettre"),
  ("excludes", "Le champ :field ne doit pas contenir :arg0"),
  ("hasLetter", "Ce champ doit contenir au moins une lettre"),
  ("regex", "Ce champ est invalide"),
  ("lower", "Ce champ doit être en minuscules"),
  ("upper", "Ce champ doit être en majuscules"),
  ("fileBetween", "La taille du fichier doit être comprise entre :arg0 et :arg1"),
  ("stringBetween", "Le nombre de caractères autorisés doit être compris entre :arg0 et :arg1"),
  ("modulo", "La valeur du champ :field doit être un multiple de :arg0"),
  ("mod", "La valeur du champ :field doit être un multiple de :arg0"),
  ("only", "Le format de ce champ n\x27est pas accepté car il contient des caractères non autorisés"),
  ("mimes", "Ce format de fichier n\x27est pas pris en charge"),
  ("digit", "Ce champ doit être une valeur numérique comportant exactement :arg0 chiffres"),
  ("minDigit", "Ce champ doit être une valeur numérique comportant au minimum :arg0 chiffres"),
  ("maxDigit", "Ce champ doit être une valeur numérique comportant au maximum :arg0 chiffres"),
  ("lessThan", "Ce champ doit être une valeur numérique inférieure à :arg0"),
  ("lthan", "Ce champ doit être une valeur numérique inférieure à :arg0"),
  ("greaterThan", "Ce champ doit être une valeur numérique supérieure à :arg0"),
  ("gthan", "Ce champ doit être une valeur numérique supérieure à :arg0"),
  ("dateBetween", "La date doit être comprise entre :arg0 et :arg1"),
  ("numberBetween", "Ce champ doit être une valeur numérique comprise entre :arg0 et :arg1"),
  ("object", "Ce champ doit être un objet valide"),
  ("array", "Ce champ doit être un tableau valide"),
  ("json", "Ce champ doit être une chaîne JSON valide")]

/-- The Local store (src/locale/local.ts): a language selector over per-locale
catalogs.  The constructor registers the English and French catalogs and sets
the default language to en. -/
structure Local where
  useLang : Option String
  LANG : String
  message : List (String × List (String × String))

/-- A fresh Local as built by its constructor. -/
def defaultLocal : Local :=
  ⟨none, "en", [("en", en_messages), ("fr", fr_messages)]⟩

/-- Lookup of a locale catalog by language code. -/
def catalogLookup (l : List (String × List (String × String))) (k : String) :
    Option (List (String × String)) :=
  match l with
  | [] => none
  | (k2, v) :: rest => if k2 == k then some v else catalogLookup rest k

/-- Local.getMessages: resolve the requested, selected or default language,
falling back to the en catalog when the language is unknown. -/
def localGetMessages (l : Local) (loc : Option String) : List (String × String) :=
  let lang := (loc.orElse (fun _ => l.useLang)).getD l.LANG
  match catalogLookup l.message lang with
  | some m => m
  | none => (catalogLookup l.message "en").getD []

/-- Local.getRuleMessage: messages[rule] ?? messages[default].  Both embedded
catalogs define the default entry, so the final fallback string is unreachable
for defaultLocal; it stands for the JS undefined result. -/
def localGetRuleMessage (l : Local) (rule : String) : String :=
  let ms := localGetMessages l none
  ((alistLookup ms rule).orElse (fun _ => alistLookup ms "default")).getD "undefined"

/-- Messages._createParamObject: positional argument names arg0, arg1, ... -/
def createParamObject (params : List String) : List (String × String) :=
  (params.enum).map (fun p => ("arg" ++ toString p.1, p.2))

/-- Check whether a character list starts with a pattern. -/
def startsWithList : List Char → List Char → Bool
  | _, [] => true
  | [], _ :: _ => false
  | a :: as, b :: bs => a == b && startsWithList as bs

/-- Replace the first occurrence of a pattern in a character list. -/
def replaceFirstAux (pat repl : List Char) : List Char → List Char
  | [] => []
  | c :: rest =>
    if startsWithList (c :: rest) pat then repl ++ (c :: rest).drop pat.length
    else c :: replaceFirstAux pat repl rest

/-- Model of JS String.prototype.replace with a plain-string (or the fixed
...arg regex) pattern: first occurrence only. -/
def replaceFirst (s pat repl : String) : String :=
  String.mk (replaceFirstAux pat.data repl.data s.data)

/-- Messages._replace: substitute :arg0, :arg1, ..., then :field, skipping
falsy (empty) replacement values, then expand the first ...arg marker with all
positional parameters joined by a comma and a space. -/
def messagesReplace (message : String) (args : List (String × String))
    (attrName : String) : String :=
  let withField := args ++ [("field", attrName)]
  let m := withField.foldl
    (fun m kv => if kv.2 != "" then replaceFirst m (":" ++ kv.1) kv.2 else m)
    message
  replaceFirst m "...arg" (String.intercalate ", " (args.map (fun kv => kv.2)))

/-- Messages.parseMessage: split the scalar parameter payload on commas, build
the positional argument record, and run the substitution. -/
def parseMessage (attrName : String) (message : String) (oParams : JSValue) :
    String :=
  messagesReplace message (createParamObject (spliteParam (jsToStringOpt oParams)))
    attrName

/-- One entry of a rule chain as produced by InputRule.all(): declared name,
scalar parameter payload, resolved callback (possibly missing) and optional
caller-supplied message override. -/
structure RuleEntry where
  name : String
  params : JSValue
  validate : Option RuleCallBack
  message : Option String

/-- A rule execution record (src/validation/utils/rule-executed.ts, a file not
included in this copy of the repository).  Modelled from the spec: per-rule
per-pass outcome with ruleName, originalRuleName, params, passed, valueTested,
run flag and rendered message; isNamed compares the ruleName field. -/
structure RuleExecuted where
  ruleName : String
  orignalName : String
  params : JSValue
  passed : Bool
  valueTested : JSValue
  run : Bool
  message : Option String

/-- A fresh execution record as built by the RuleExecuted constructor. -/
def mkRuleExecuted (r orig : String) : RuleExecuted :=
  ⟨r, orig, .undefined, false, .undefined, false, none⟩

/-- Validation._makeRuleExcutedInstance: find an existing record by name. -/
def findExec (name : String) : List RuleExecuted → Option RuleExecuted
  | [] => none
  | r :: rest => if r.ruleName == name then some r else findExec name rest

/-- Write a record back into the executed list: replace the record with the same
name in place, else append (Validation._addRuleExecuted on a fresh record). -/
def placeExec (r : RuleExecuted) : List RuleExecuted → List RuleExecuted
  | [] => [r]
  | x :: rest => if x.ruleName == r.ruleName then r :: rest else x :: placeExec r rest

/-- The transient state threaded through one Validation.validate pass: the
current (coerced) value, the current type hint, the private message record
_messages, and the execution records. -/
structure VState where
  value : JSValue
  inputType : InputType
  messages : List (String × String)
  executed : List RuleExecuted

/-- Validation._parseRuleMessage: choose the caller override when it is truthy
and differs from the catalog default for the original rule name, else the
catalog entry for the (possibly aliased) rule name; store it in _messages keyed
by the record name; then render it through Messages over the merged catalog.
The template read mirrors Messages.getRulesMessages, whose branch tests the
looked-up entry for truthiness, so a missing or empty template degrades to the
generic The input value is not valid string.  Returns the updated _messages
record and the rendered message. -/
def parseRuleMessage (loc : Local) (attr : String) (msgs : List (String × String))
    (re : RuleExecuted) (aliasRule : String) (declMsg : Option String) :
    List (String × String) × String :=
  let orgMesage := localGetRuleMessage loc re.orignalName
  let stored :=
    match declMsg with
    | some m =>
      if m != "" && m != orgMesage then m else localGetRuleMessage loc aliasRule
    | none => localGetRuleMessage loc aliasRule
  let msgs2 := alistSet msgs re.ruleName stored
  let merged := alistOverlay (localGetMessages loc none) msgs2
  let template :=
    match alistLookup merged re.ruleName with
    | some t => if t != "" then t else "The input value is not valid"
    | none => "The input value is not valid"
  (msgs2, parseMessage attr template re.params)

/-- The loop body of Validation.validate (src/validation/validation.ts lines
57-127), one recursive step per chain entry, threading the coerced value, type
hint, message record, execution records and the nullable-and-null latch. -/
def validateRules (loc : Local) (attr : String) (failOnfirst : Bool) :
    List RuleEntry → VState → Bool → Except String VState
  | [], st, _ => .ok st
  | rule :: rest, st, latch =>
    let ruleName := rule.name
    let re0 := ((findExec ruleName st.executed).getD (mkRuleExecuted ruleName ruleName))
    let re1 := { re0 with params := rule.params }
    if latch then
      let rec2 := { re1 with passed := true, valueTested := st.value, run := true }
      validateRules loc attr failOnfirst rest { st with executed := placeExec rec2 st.executed } latch
    else
      match rule.validate with
      | none => .error ("The rule " ++ ruleName ++ " is not defined")
      | some cb =>
        match cb st.value rule.params st.inputType with
        | .error e => .error e
        | .ok state =>
          let latch2 :=
            ruleName == "nullable" && state.passes &&
              (match st.value with
               | .null => true
               | .str "" => true
               | .undefined => true
               | _ => false)
          let newValue := state.value
          let newType := state.type.getD st.inputType
          let ruleToRun := state.aliasName.getD ruleName
          let rec2 := { re1 with passed := state.passes, valueTested := newValue, run := true }
          if failOnfirst then
            if !state.passes then
              let pm := parseRuleMessage loc attr st.messages rec2 ruleToRun rule.message
              .ok { value := newValue, inputType := newType, messages := pm.1,
                    executed := placeExec { rec2 with message := some pm.2 } st.executed }
            else
              validateRules loc attr failOnfirst rest
                { value := newValue, inputType := newType, messages := st.messages,
                  executed := placeExec rec2 st.executed } latch2
          else
            if !state.passes then
              let pm := parseRuleMessage loc attr st.messages rec2 ruleToRun rule.message
              validateRules loc attr failOnfirst rest
                { value := newValue, inputType := newType, messages := pm.1,
                  executed := placeExec { rec2 with message := some pm.2 } st.executed } latch2
            else
              validateRules loc attr failOnfirst rest
                { value := newValue, inputType := newType, messages := st.messages,
                  executed := placeExec { rec2 with message := none } st.executed } latch2

/-- Validation.hasErrors: some executed record failed. -/
def hasErrors (executed : List RuleExecuted) : Bool :=
  executed.any (fun r => !r.passed)

/-- The result of one Validation.validate call on a fresh Validation instance:
the boolean return value together with the final engine state. -/
structure ValidateResult where
  ok : Bool
  executed : List RuleExecuted
  messages : List (String × String)
  value : JSValue

/-- Run Validation.validate on a fresh Validation configured with the given
attribute, failsOnFirst policy, rule chain, value and input type. -/
def runValidateFull (loc : Local) (attr : String) (failOnfirst : Bool)
    (chain : List RuleEntry) (v : JSValue) (t : InputType) :
    Except String ValidateResult :=
  match validateRules loc attr failOnfirst chain ⟨v, t, [], []⟩ false with
  | .error e => .error e
  | .ok st => .ok ⟨!hasErrors st.executed, st.executed, st.messages, st.value⟩

/-- Validation.getErrors: ordered record of original rule name to message for
every failing execution record. -/
def getErrors (executed : List RuleExecuted) : List (String × String) :=
  (executed.filter (fun r => !r.passed)).map
    (fun r => (r.orignalName, r.message.getD ""))

/-- The subset of the default rule bag (src/validation/bag.ts) exercised by the
claims under verification: name to callback.  Unknown names resolve to none,
which is exactly what an InputRule entry carries for an unregistered rule. -/
def bagGetRule : String → Option RuleCallBack
  | "required" => some required
  | "nullable" => some nullable
  | "number" => some isNumber
  | "numeric" => some isNumber
  | "min" => some minRule
  | "minlength" => some minlength
  | _ => none

/-- Split a character list on a single-character delimiter. -/
def splitOnCharAux (delim : Char) : List Char → List Char → List String
  | [], acc => [String.mk acc.reverse]
  | c :: rest, acc =>
    if c == delim then String.mk acc.reverse :: splitOnCharAux delim rest []
    else splitOnCharAux delim rest (c :: acc)

/-- Take the name part of one rule item: the text before the first colon. -/
def ruleNamePart : List Char → List Char
  | [] => []
  | ':' :: _ => []
  | c :: rest => c :: ruleNamePart rest

/-- Take the parameter part of one rule item: none when there is no colon, else
everything after the first colon as one string. -/
def ruleParamPart : List Char → Option (List Char)
  | [] => none
  | ':' :: rest => some rest
  | _ :: rest => ruleParamPart rest

/-- Modelled from the spec: InputRule (src/validation/utils/input-rule.ts, a
file not included in this copy of the repository) parses a pipe-delimited rule
specification; each item is a rule name, optionally followed by a colon and a
scalar parameter payload, and resolves its callback in the rule bag. -/
def parseOneRule (s : String) : RuleEntry :=
  let n := String.mk (ruleNamePart s.data)
  let p :=
    match ruleParamPart s.data with
    | none => JSValue.undefined
    | some l => JSValue.str (String.mk l)
  ⟨n, p, bagGetRule n, none⟩

/-- Modelled from the spec: a pipe-delimited rule string becomes the ordered
rule chain. -/
def parseRules (s : String) : List RuleEntry :=
  (splitOnCharAux '|' s.data []).map parseOneRule

/-- A convenience constructor for a chain entry resolved in the bag. -/
def mkEntry (n : String) (p : JSValue) : RuleEntry :=
  ⟨n, p, bagGetRule n, none⟩

/-- Modelled from the spec: data_get (src/utils, a file not included in this
copy of the repository) resolves a dotted field path against nested objects;
any missing or non-object intermediate segment resolves to undefined. -/
def data_get (d : JSValue) (path : String) : JSValue :=
  go d (splitOnCharAux '.' path.data [])
where
  lookupField (fields : List (String × JSValue)) (k : String) : Option JSValue :=
    match fields with
    | [] => none
    | (k2, v) :: rest => if k2 == k then some v else lookupField rest k
  go : JSValue → List String → JSValue
    | v, [] => v
    | .obj fields, k :: rest =>
      (match lookupField fields k with
       | some v => go v rest
       | none => .undefined)
    | _, _ :: _ => .undefined

/-- One InputValidator bound into the form: its name, parsed rule chain, the
display attribute, the failsOnfirst policy, the declared input type, the input
level value (AbstractInputralidator._value) and the persistent state of its
private Validation instance (_value, _messages, _ruleExecuted). -/
structure InputV where
  name : String
  chain : List RuleEntry
  attr : String
  failOnfirst : Bool
  inputType : InputType
  rawValue : JSValue
  vValue : JSValue
  vMessages : List (String × String)
  vExecuted : List RuleExecuted

/-- A fresh InputValidator for a literal field name and rule chain, as built by
the InputValidator constructor: the message attribute defaults to the name,
failsOnfirst defaults to true and the type to text. -/
def mkInputV (name : String) (chain : List RuleEntry) : InputV :=
  ⟨name, chain, name, true, .text, .undefined, .undefined, [], []⟩

/-- One run of the private Validation instance of an input: validate() over the
persistent engine state, returning the updated input and the pass verdict. -/
def runValidation (loc : Local) (iv : InputV) : Except String (InputV × Bool) :=
  match validateRules loc iv.attr iv.failOnfirst iv.chain
      ⟨iv.vValue, iv.inputType, iv.vMessages, iv.vExecuted⟩ false with
  | .error e => .error e
  | .ok st =>
    .ok ({ iv with
             vValue := st.value, vMessages := st.messages,
             vExecuted := st.executed }, !hasErrors st.executed)

/-- InputValidator.valid(): push the input value into the validator (whose value
setter re-runs validate) and read passes(). -/
def inputValid (loc : Local) (iv : InputV) : Except String (InputV × Bool) :=
  runValidation loc { iv with vValue := iv.rawValue }

/-- InputValidator.setValue: store the value; the value setter triggers
validate() immediately. -/
def inputSetValue (loc : Local) (v : JSValue) (iv : InputV) :
    Except String (InputV × Bool) :=
  inputValid loc { iv with rawValue := v }

/-- Observable events of one FormValidator.isValid() call: which fields were fed
and validated in the first pass, which external predicates ran, and which
lifecycle event fired. -/
inductive FEvent where
  | fieldEvaluated (name : String)
  | predicateInvoked (idx : Nat)
  | formFails
  | formPasses
deriving DecidableEq, BEq

/-- The first pass of FormValidator.isValid(): each input receives its value
from the bound data via dotted-path lookup (which triggers validation). -/
def phaseA (loc : Local) (d : JSValue) : List InputV → Except String (List InputV)
  | [] => .ok []
  | iv :: rest =>
    match inputSetValue loc (data_get d iv.name) iv with
    | .error e => .error e
    | .ok (iv2, _) =>
      match phaseA loc d rest with
      | .error e => .error e
      | .ok rest2 => .ok (iv2 :: rest2)

/-- The second pass of FormValidator.isValid(): Array.prototype.every over
input.valid(), which revalidates each input and stops at the first failure. -/
def everyValid (loc : Local) : List InputV → Except String (List InputV × Bool)
  | [] => .ok ([], true)
  | iv :: rest =>
    match inputValid loc iv with
    | .error e => .error e
    | .ok (iv2, b) =>
      if b then
        match everyValid loc rest with
        | .error e => .error e
        | .ok (rest2, b2) => .ok (iv2 :: rest2, b2)
      else .ok (iv2 :: rest, false)

/-- External whole-form predicates registered through FormValidator.with.  A
predicate observes the form; the claims only exercise predicates that read the
bound data, so the embedding hands each predicate the form data. -/
abbrev FormPred : Type := JSValue → Bool

/-- Array.prototype.every over the with-callbacks: each predicate runs in
registration order until the first one that returns false; the second component
lists the positions actually invoked. -/
def predEvery (d : JSValue) : List FormPred → Nat → Bool × List Nat
  | [], _ => (true, [])
  | p :: rest, i =>
    if p d then
      let r := predEvery d rest (i + 1)
      (r.1, i :: r.2)
    else (false, [i])

/-- The transition-event phase of isValid: _emitOnPassesEvent when the verdict
is passing, _emitOnFailsEvent otherwise, each guarded by its latch and flipping
both latches when it fires.  Returns the new (emitOnPasses, emitOnFails) pair
and the fired events. -/
def emitPhase (ok ep ef : Bool) : (Bool × Bool) × List FEvent :=
  if ok then
    if ep then ((false, true), [.formPasses]) else ((ep, ef), [])
  else
    if ef then ((true, false), [.formFails]) else ((ep, ef), [])

/-- The state of one FormValidator: its inputs, bound data, external predicates,
registered wildcard patterns (pattern name and rule-chain template) and the two
transition latches. -/
structure FormState where
  inputs : List InputV
  data : JSValue
  preds : List FormPred
  wildcards : List (String × List RuleEntry)
  emitOnPasses : Bool
  emitOnFails : Bool

/-- FormValidator.isValid(): feed every input its value (first pass), reduce
input.valid() with Array.every (second pass), run the external predicates with
Array.every, then fire at most one transition event. -/
def formIsValid (loc : Local) (fs : FormState) :
    Except String (FormState × Bool × List FEvent) :=
  match phaseA loc fs.data fs.inputs with
  | .error e => .error e
  | .ok inputsA =>
    match everyValid loc inputsA with
    | .error e => .error e
    | .ok (inputsB, valid) =>
      let pe := predEvery fs.data fs.preds 0
      let ok := valid && pe.1
      let em := emitPhase ok fs.emitOnPasses fs.emitOnFails
      .ok ({ fs with inputs := inputsB, emitOnPasses := em.1.1, emitOnFails := em.1.2 },
           ok,
           (fs.inputs.map (fun iv => FEvent.fieldEvaluated iv.name))
             ++ pe.2.map FEvent.predicateInvoked ++ em.2)

/-- The FormValidator.errors getter: for every input that fails (re-validating
it), record its name and the first message of its error record.  The
transformToArray utility (src/utils, not included) maps a record to the array
of its values; taking index 0 selects the first error message. -/
def formErrors (loc : Local) : List InputV → Except String (List (String × String))
  | [] => .ok []
  | iv :: rest =>
    match inputValid loc iv with
    | .error e => .error e
    | .ok (iv2, b) =>
      match formErrors loc rest with
      | .error e => .error e
      | .ok r =>
        if b then .ok r
        else .ok ((iv.name, (((getErrors iv2.vExecuted).head?).map (fun kv => kv.2)).getD "undefined") :: r)

/-- FormValidator.addInput: destroy and drop any input with the same name, then
push the new one. -/
def addInputF (inputs : List InputV) (iv : InputV) : List InputV :=
  (inputs.filter (fun x => !(x.name == iv.name))) ++ [iv]

/-- The prefix of a wildcard pattern name: everything before the first literal
.* occurrence (JS name.split with the string separator, first chunk). -/
def takeBeforeDotStar : List Char → List Char
  | [] => []
  | '.' :: '*' :: _ => []
  | c :: rest => c :: takeBeforeDotStar rest

/-- FormValidator.handleWildcards: for every registered pattern, resolve the
path prefix in the bound data; when it is a (truthy) object, add one fresh
InputValidator per enumerable key, named prefix.key, through addInput. -/
def handleWildcardsF (fs : FormState) : FormState :=
  let inputs := fs.wildcards.foldl
    (fun acc w =>
      let pre := String.mk (takeBeforeDotStar w.1.data)
      match data_get fs.data pre with
      | .obj fields =>
        fields.foldl
          (fun acc2 kv => addInputF acc2 (mkInputV (pre ++ "." ++ kv.1) w.2)) acc
      | _ => acc)
    fs.inputs
  { fs with inputs := inputs }

/-- The JS object spread merge for form data; data payloads are objects in every
embedded scenario, and spreading a non-object contributes no enumerable keys. -/
def jsShallowMerge (a b : JSValue) : JSValue :=
  match a, b with
  | .obj xs, .obj ys =>
    .obj (ys.foldl
      (fun acc kv =>
        if acc.any (fun kv2 => kv2.1 == kv.1) then
          acc.map (fun kv2 => if kv2.1 == kv.1 then (kv2.1, kv.2) else kv2)
        else acc ++ [kv])
      xs)
  | .obj xs, _ => .obj xs
  | _, .obj ys => .obj ys
  | _, _ => .obj []

/-- FormValidator.setData: replace the data when it is a truthy object, else
bind the empty object; then re-expand every wildcard pattern. -/
def setDataF (fs : FormState) (d : JSValue) : FormState :=
  let d2 :=
    match d with
    | .obj fields => JSValue.obj fields
    | .arr elems => JSValue.arr elems
    | _ => JSValue.obj []
  handleWildcardsF { fs with data := d2 }

/-- FormValidator.mergeData: shallow-merge the new data over the old, then
re-expand every wildcard pattern. -/
def mergeDataF (fs : FormState) (d : JSValue) : FormState :=
  handleWildcardsF { fs with data := jsShallowMerge fs.data d }

/-- FormValidator._bootInputs for one named rule specification: a name holding a
star registers a wildcard pattern and re-expands immediately, a literal name
adds a fresh InputValidator. -/
def bootInput (fs : FormState) (name : String) (rules : String) : FormState :=
  if name.data.any (fun c => c == '*') then
    handleWildcardsF { fs with wildcards := fs.wildcards ++ [(name, parseRules rules)] }
  else
    { fs with inputs := addInputF fs.inputs (mkInputV name (parseRules rules)) }

/-- A FormValidator as built by its constructor from a named rule map and
initial data: make the inputs, then mergeData the initial payload. -/
def mkForm (specs : List (String × String)) (d : JSValue) : FormState :=
  mergeDataF (specs.foldl (fun fs nr => bootInput fs nr.1 nr.2) ⟨[], .obj [], [], [], true, true⟩) d

/-- The data mutations of claim C8: setData or mergeData with a payload. -/
inductive DataOp where
  | set (d : JSValue)
  | merge (d : JSValue)

/-- Apply one data mutation to the form. -/
def applyOp (fs : FormState) : DataOp → FormState
  | .set d => setDataF fs d
  | .merge d => mergeDataF fs d

/-- Apply a sequence of data mutations to the form. -/
def applyOps (fs : FormState) (ops : List DataOp) : FormState :=
  ops.foldl applyOp fs

/-- The field names currently bound in a form, in order. -/
def namesOf (inputs : List InputV) : List String :=
  inputs.map (fun iv => iv.name)

/-! Helper lemmas shared by several claims. -/

/-- A list of whitespace characters is fully consumed by dropWs. -/
theorem dropWs_eq_nil (l : List Char) (h : ∀ c ∈ l, isWsChar c = true) :
    dropWs l = [] := by
  induction l with
  | nil => rfl
  | cons c rest ih =>
    have hc : isWsChar c = true := h c (by simp)
    simp only [dropWs, hc, if_true]
    exact ih (fun x hx => h x (by simp [hx]))

/-- Trimming a whitespace-only character list gives the empty list. -/
theorem trimChars_eq_nil (l : List Char) (h : ∀ c ∈ l, isWsChar c = true) :
    trimChars l = [] := by
  have h1 : dropWs l.reverse = [] := by
    refine dropWs_eq_nil _ (fun c hc => h c ?_)
    exact (List.mem_reverse).1 hc
  simp [trimChars, h1, dropWs]

/-- Reading back the key just assigned in an association list. -/
theorem alistLookup_alistSet (l : List (String × String)) (k v : String) :
    alistLookup (alistSet l k v) k = some v := by
  induction l with
  | nil => simp [alistSet, alistLookup]
  | cons kv rest ih =>
    by_cases hk : kv.1 == k
    · simp [alistSet, alistLookup, hk]
    · simp [alistSet, alistLookup, hk, ih]

/-- The observable chains of claims C1 to C3. -/
def chainNNM : List RuleEntry :=
  [mkEntry "nullable" .undefined, mkEntry "number" .undefined, mkEntry "min" (.str "3")]

/-- The required, number, min chain of claim C2. -/
def chainRNM : List RuleEntry :=
  [mkEntry "required" .undefined, mkEntry "number" .undefined, mkEntry "min" (.str "3")]

/-- Projection of an execution record to its externally observable fields:
rule name, passed flag, run flag and tested value. -/
def viewExec (r : RuleExecuted) : String × Bool × Bool × JSValue :=
  (r.ruleName, r.passed, r.run, r.valueTested)

/-- Claim C1: on the chain nullable, number, min:3 and value null, validate
produces execution records for all three rules with passed = true and
run = true, only the nullable callback is invoked with the value (the outcome
is independent of the callbacks in the number and min positions), and the same
latch behaviour holds for the empty string and undefined. -/
theorem claim_C1 :
    ((runValidateFull defaultLocal "" true chainNNM .null .text).map
        (fun r => (r.ok, r.executed.map viewExec)) =
      .ok (true, [("nullable", true, true, .null),
                  ("number", true, true, .null),
                  ("min", true, true, .null)]))
  ∧ (∀ cb2 cb3 : RuleCallBack,
      (runValidateFull defaultLocal "" true
          [mkEntry "nullable" .undefined,
           ⟨"number", .undefined, some cb2, none⟩,
           ⟨"min", .str "3", some cb3, none⟩] .null .text).map
        (fun r => (r.ok, r.executed.map viewExec)) =
      .ok (true, [("nullable", true, true, .null),
                  ("number", true, true, .null),
                  ("min", true, true, .null)]))
  ∧ (∀ cb2 cb3 : RuleCallBack,
      (runValidateFull defaultLocal "" true
          [mkEntry "nullable" .undefined,
           ⟨"number", .undefined, some cb2, none⟩,
           ⟨"min", .str "3", some cb3, none⟩] (.str "") .text).map
        (fun r => (r.ok, r.executed.map viewExec)) =
      .ok (true, [("nullable", true, true, .str ""),
                  ("number", true, true, .str ""),
                  ("min", true, true, .str "")]))
  ∧ (∀ cb2 cb3 : RuleCallBack,
      (runValidateFull defaultLocal "" true
          [mkEntry "nullable" .undefined,
           ⟨"number", .undefined, some cb2, none⟩,
           ⟨"min", .str "3", some cb3, none⟩] .undefined .text).map
        (fun r => (r.ok, r.executed.map viewExec)) =
      .ok (true, [("nullable", true, true, .undefined),
                  ("number", true, true, .undefined),
                  ("min", true, true, .undefined)])) :=
  ⟨rfl, fun _ _ => rfl, fun _ _ => rfl, fun _ _ => rfl⟩

/-- Witness for claim C1: even a callback that would throw in the number and
min positions never runs once the nullable latch is set on a null value. -/
theorem claim_C1_witness :
    (runValidateFull defaultLocal "" true
        [mkEntry "nullable" .undefined,
         ⟨"number", .undefined, some (fun _ _ _ => .error "never invoked"), none⟩,
         ⟨"min", .str "3", some (fun _ _ _ => .error "never invoked"), none⟩]
        .null .text).map
      (fun r => (r.ok, r.executed.map viewExec)) =
    .ok (true, [("nullable", true, true, .null),
                ("number", true, true, .null),
                ("min", true, true, .null)]) :=
  claim_C1.2.1 (fun _ _ _ => .error "never invoked") (fun _ _ _ => .error "never invoked")

/-- Claim C2: with failsOnFirst = true on required, number, min:3 and the empty
string, only the required record exists and the remaining entries are never
reached (the outcome does not depend on them at all); with failsOnFirst = false
all three records exist, all failing. -/
theorem claim_C2 :
    (∀ rest : List RuleEntry,
      (runValidateFull defaultLocal "" true (mkEntry "required" .undefined :: rest)
          (.str "") .text).map
        (fun r => (r.ok, r.executed.map viewExec)) =
      .ok (false, [("required", false, true, .str "")]))
  ∧ ((runValidateFull defaultLocal "" false chainRNM (.str "") .text).map
        (fun r => (r.ok, r.executed.map viewExec)) =
      .ok (false, [("required", false, true, .str ""),
                   ("number", false, true, .str ""),
                   ("min", false, true, .str "")])) :=
  ⟨fun _ => rfl, rfl⟩

/-- Witness for claim C2: the fail-fast truncation at the concrete chain
required, number, min:3 of the claim. -/
theorem claim_C2_witness :
    (runValidateFull defaultLocal "" true
        (mkEntry "required" .undefined :: [mkEntry "number" .undefined, mkEntry "min" (.str "3")])
        (.str "") .text).map
      (fun r => (r.ok, r.executed.map viewExec)) =
    .ok (false, [("required", false, true, .str "")]) :=
  claim_C2.1 [mkEntry "number" .undefined, mkEntry "min" (.str "3")]

/-- A probe callback that records the value and type it receives inside its
returned value, to observe exactly what the engine hands to the next rule. -/
def spyCallback : RuleCallBack := fun v _ t =>
  .ok ⟨true, .arr [v, .str t.render], none, none⟩

/-- Claim C3: on number then min:3 with input "5", the min record observes the
numeric 5 produced by the number rule (not the string), and a probe callback in
the second position receives exactly the numeric 5 with type hint number. -/
theorem claim_C3 :
    ((runValidateFull defaultLocal "" true
        [mkEntry "number" .undefined, mkEntry "min" (.str "3")] (.str "5") .text).map
        (fun r => (r.ok, r.executed.map viewExec)) =
      .ok (true, [("number", true, true, .num 5), ("min", true, true, .num 5)]))
  ∧ ((runValidateFull defaultLocal "" true
        [mkEntry "number" .undefined, ⟨"probe", .undefined, some spyCallback, none⟩]
        (.str "5") .text).map
        (fun r => r.executed.map (fun re => re.valueTested)) =
      .ok [.num 5, .arr [.num 5, .str "number"]]) :=
  ⟨rfl, rfl⟩

/-- Claim C10: the required rule passes every number (including 0) and every
boolean (including false), fails whitespace-only strings, the empty array and
the empty object, and always returns its input unchanged as its value. -/
theorem claim_C10 :
    (∀ (n : Int) (p : JSValue) (t : InputType),
      required (.num n) p t = .ok ⟨true, .num n, none, none⟩)
  ∧ (∀ (b : Bool) (p : JSValue) (t : InputType),
      required (.bool b) p t = .ok ⟨true, .bool b, none, none⟩)
  ∧ (∀ (s : String) (p : JSValue) (t : InputType),
      (∀ c ∈ s.data, isWsChar c = true) →
      required (.str s) p t = .ok ⟨false, .str s, none, none⟩)
  ∧ (∀ (p : JSValue) (t : InputType),
      required (.arr []) p t = .ok ⟨false, .arr [], none, none⟩)
  ∧ (∀ (p : JSValue) (t : InputType),
      required (.obj []) p t = .ok ⟨false, .obj [], none, none⟩)
  ∧ (∀ (v p : JSValue) (t : InputType),
      ∃ b : Bool, required v p t = .ok ⟨b, v, none, none⟩) := by
  refine ⟨fun n p t => rfl, fun b p t => rfl, ?_, fun p t => rfl, fun p t => rfl, ?_⟩
  · intro s p t h
    have hz : trimChars s.data = [] := trimChars_eq_nil s.data h
    simp [required, hz]
  · intro v p t
    cases v <;> exact ⟨_, rfl⟩

/-- Witness for claim C10: a concrete two-space string is whitespace-only and
required rejects it, returning the value unchanged. -/
theorem claim_C10_witness :
    required (.str "  ") .undefined .text = .ok ⟨false, .str "  ", none, none⟩ :=
  claim_C10.2.2.1 "  " .undefined .text (by decide)

/-- The message template the specification prescribes for a failing rule whose
callback reported an alias: the caller override when truthy and different from
the catalog default for the original rule name, else the catalog entry for the
alias name. -/
def chosenTemplate (loc : Local) (orig aliasRule : String) (declMsg : Option String) :
    String :=
  match declMsg with
  | some m =>
    if m != "" && m != localGetRuleMessage loc orig then m
    else localGetRuleMessage loc aliasRule
  | none => localGetRuleMessage loc aliasRule

/-- The template Messages.getRulesMessages actually hands to the renderer: the
chosen template when it is truthy (non-empty), else the generic default string,
mirroring the truthiness branch of part_006. -/
def renderedTemplate (loc : Local) (orig aliasRule : String)
    (declMsg : Option String) : String :=
  let t := chosenTemplate loc orig aliasRule declMsg
  if t != "" then t else "The input value is not valid"

/-- Looking up a key in a catalog overlaid with exactly that key finds the
overlaid value. -/
theorem alistLookup_overlay_single (base : List (String × String)) (k v : String) :
    alistLookup (alistOverlay base (alistSet [] k v)) k = some v := by
  have h1 : alistSet ([] : List (String × String)) k v = [(k, v)] := rfl
  have h2 : alistOverlay base [(k, v)] = alistSet base k v := rfl
  rw [h1, h2, alistLookup_alistSet]

/-- The message produced by Validation._parseRuleMessage on a fresh message
record is the rendering of the template chosen by override-else-alias lookup,
degraded to the generic default when that template is empty. -/
theorem parseRuleMessage_msg (loc : Local) (attr : String) (re : RuleExecuted)
    (aliasRule : String) (declMsg : Option String) :
    (parseRuleMessage loc attr [] re aliasRule declMsg).2 =
      parseMessage attr (renderedTemplate loc re.orignalName aliasRule declMsg) re.params := by
  cases declMsg with
  | none =>
    simp [parseRuleMessage, renderedTemplate, chosenTemplate, alistLookup_overlay_single]
  | some m =>
    by_cases hm : (m != "" && m != localGetRuleMessage loc re.orignalName) = true
    · simp [parseRuleMessage, renderedTemplate, chosenTemplate, hm,
        alistLookup_overlay_single]
    · simp [parseRuleMessage, renderedTemplate, chosenTemplate, hm,
        alistLookup_overlay_single]

/-- Claim C4: when a rule callback reports a failure carrying an alias, the
failing record message is rendered from the catalog template of the alias name
(or from a caller override that is truthy and differs from the catalog default
for the original rule name), never from the rule declared name; an empty
looked-up template degrades to the generic default string, as the message
store does for every lookup. -/
theorem claim_C4 (name a attr : String) (cb : RuleCallBack) (params v : JSValue)
    (t : InputType) (st : ValidationState) (declMsg : Option String)
    (hcb : cb v params t = .ok st) (hpass : st.passes = false)
    (halias : st.aliasName = some a) :
    (runValidateFull defaultLocal attr true [⟨name, params, some cb, declMsg⟩] v t).map
        (fun r => r.executed.map (fun re => re.message)) =
      .ok [some (parseMessage attr (renderedTemplate defaultLocal name a declMsg) params)] := by
  have hmsg := parseRuleMessage_msg defaultLocal attr
    (⟨name, name, params, false, st.value, true, none⟩ : RuleExecuted) a declMsg
  simp [runValidateFull, validateRules, findExec, mkRuleExecuted, hcb, hpass, halias,
    placeExec, hasErrors, Except.map, hmsg]

/-- Witness for claim C4: the min rule fails on the string "ab" with alias
minlength, so its message is the minlength catalog template rendered with the
parameter 3, not the min template; and a callback aliasing to nullable, whose
catalog entry is the empty string, resolves to the generic default message. -/
theorem claim_C4_witness :
    ((runValidateFull defaultLocal "age" true
        [⟨"min", .str "3", some minRule, none⟩] (.str "ab") .text).map
        (fun r => r.executed.map (fun re => re.message)) =
      .ok [some (parseMessage "age"
        (renderedTemplate defaultLocal "min" "minlength" none) (.str "3"))])
  ∧ ((runValidateFull defaultLocal "age" true
        [⟨"custom", .undefined,
          some (fun v _ _ => .ok ⟨false, v, some "nullable", none⟩), none⟩]
        (.str "x") .text).map
        (fun r => r.executed.map (fun re => re.message)) =
      .ok [some (parseMessage "age"
        (renderedTemplate defaultLocal "custom" "nullable" none) .undefined)]) :=
  ⟨claim_C4 "min" "minlength" "age" minRule (.str "3") (.str "ab") .text
     ⟨false, .str "ab", some "minlength", none⟩ none rfl rfl rfl,
   claim_C4 "custom" "nullable" "age"
     (fun v _ _ => .ok ⟨false, v, some "nullable", none⟩) .undefined (.str "x") .text
     ⟨false, .str "x", some "nullable", none⟩ none rfl rfl rfl⟩

/-- A chain entry whose callback is present and never throws. -/
def TotalEntry (e : RuleEntry) : Prop :=
  ∃ cb, e.validate = some cb ∧ ∀ v p t, ∃ st, cb v p t = .ok st

/-- A chain all of whose entries resolve to total callbacks. -/
def TotalChain (chain : List RuleEntry) : Prop :=
  ∀ e ∈ chain, TotalEntry e

/-- The validate loop never throws over a chain of total callbacks. -/
theorem validateRules_total (loc : Local) (attr : String) (f : Bool) :
    ∀ (chain : List RuleEntry), TotalChain chain →
    ∀ (st : VState) (latch : Bool),
    ∃ st2, validateRules loc attr f chain st latch = .ok st2 := by
  intro chain
  induction chain with
  | nil => exact fun _ st latch => ⟨st, rfl⟩
  | cons e rest ih =>
    intro h st latch
    have hrest : TotalChain rest := fun x hx => h x (by simp [hx])
    obtain ⟨cb, hcb, htot⟩ := h e (by simp)
    cases latch with
    | true =>
      simp only [validateRules]
      exact ih hrest _ true
    | false =>
      obtain ⟨stt, hst⟩ := htot st.value e.params st.inputType
      cases hE : validateRules loc attr f (e :: rest) st false with
      | ok st2 => exact ⟨st2, rfl⟩
      | error msg =>
        have hne : ∀ (S : VState) (L : Bool),
            validateRules loc attr f rest S L ≠ Except.error msg := by
          intro S L hbad
          obtain ⟨st3, h3⟩ := ih hrest S L
          rw [h3] at hbad
          exact Except.noConfusion hbad
        simp only [validateRules, hcb, hst] at hE
        cases hp : stt.passes with
        | true =>
          cases f with
          | true =>
            simp only [hp, Bool.not_true, Bool.false_eq_true, if_false, if_true] at hE
            exact absurd hE (hne _ _)
          | false =>
            simp only [hp, Bool.not_true, Bool.false_eq_true, if_false, if_true] at hE
            exact absurd hE (hne _ _)
        | false =>
          cases f with
          | true =>
            simp [hp] at hE
          | false =>
            simp only [hp, Bool.not_false, if_true, if_false] at hE
            exact absurd hE (hne _ _)

/-- Validation.validate never throws over a chain of total callbacks. -/
theorem runValidateFull_total (loc : Local) (attr : String) (f : Bool)
    (chain : List RuleEntry) (v : JSValue) (t : InputType)
    (h : TotalChain chain) :
    ∃ r, runValidateFull loc attr f chain v t = .ok r := by
  obtain ⟨st2, hst⟩ := validateRules_total loc attr f chain h ⟨v, t, [], []⟩ false
  cases hE : runValidateFull loc attr f chain v t with
  | ok r => exact ⟨r, rfl⟩
  | error e => simp [runValidateFull, hst] at hE

/-- InputValidator.valid never throws when its chain has total callbacks. -/
theorem inputValid_total (loc : Local) (iv : InputV) (h : TotalChain iv.chain) :
    ∃ r, inputValid loc iv = .ok r := by
  obtain ⟨st2, hst⟩ := validateRules_total loc iv.attr iv.failOnfirst iv.chain h
    ⟨iv.rawValue, iv.inputType, iv.vMessages, iv.vExecuted⟩ false
  cases hE : inputValid loc iv with
  | ok r => exact ⟨r, rfl⟩
  | error e => simp [inputValid, runValidation, hst] at hE

/-- The first isValid pass never throws when every chain has total callbacks. -/
theorem phaseA_total (loc : Local) (d : JSValue) :
    ∀ (inputs : List InputV), (∀ iv ∈ inputs, TotalChain iv.chain) →
    ∃ r, phaseA loc d inputs = .ok r := by
  intro inputs
  induction inputs with
  | nil => exact fun _ => ⟨[], rfl⟩
  | cons iv rest ih =>
    intro h
    obtain ⟨⟨iv2, b⟩, hiv⟩ := inputValid_total loc
      { iv with rawValue := data_get d iv.name } (h iv (by simp))
    obtain ⟨rest2, hrest⟩ := ih (fun x hx => h x (by simp [hx]))
    cases hE : phaseA loc d (iv :: rest) with
    | ok r => exact ⟨r, rfl⟩
    | error e => simp [phaseA, inputSetValue, hiv, hrest] at hE

/-- One valid() call leaves the input rule chain unchanged. -/
theorem inputValid_chain (loc : Local) (iv iv2 : InputV) (b : Bool)
    (h : inputValid loc iv = .ok (iv2, b)) : iv2.chain = iv.chain := by
  simp only [inputValid, runValidation] at h
  cases hv : validateRules loc iv.attr iv.failOnfirst iv.chain
      ⟨iv.rawValue, iv.inputType, iv.vMessages, iv.vExecuted⟩ false with
  | error e => simp [hv] at h
  | ok st =>
    simp [hv] at h
    rw [← h.1]

/-- The first isValid pass leaves every rule chain unchanged. -/
theorem phaseA_chains (loc : Local) (d : JSValue) :
    ∀ (inputs inputs2 : List InputV), phaseA loc d inputs = .ok inputs2 →
    ∀ iv2 ∈ inputs2, ∃ iv ∈ inputs, iv2.chain = iv.chain := by
  intro inputs
  induction inputs with
  | nil =>
    intro inputs2 h
    simp only [phaseA, Except.ok.injEq] at h
    subst h
    simp
  | cons iv rest ih =>
    intro inputs2 h iv2 hmem
    simp only [phaseA] at h
    cases hs : inputSetValue loc (data_get d iv.name) iv with
    | error e => simp [hs] at h
    | ok pr =>
      obtain ⟨ivh, b⟩ := pr
      cases hr : phaseA loc d rest with
      | error e => simp [hs, hr] at h
      | ok rest2 =>
        simp [hs, hr] at h
        subst h
        rcases List.mem_cons.mp hmem with h1 | h2
        · refine ⟨iv, by simp, ?_⟩
          have h3 := inputValid_chain loc { iv with rawValue := data_get d iv.name }
            ivh b (by simpa [inputSetValue] using hs)
          rw [h1]
          simpa using h3
        · obtain ⟨x, hx1, hx2⟩ := ih rest2 hr iv2 h2
          exact ⟨x, by simp [hx1], hx2⟩

/-- The every pass of isValid never throws when every chain has total callbacks. -/
theorem everyValid_total (loc : Local) :
    ∀ (inputs : List InputV), (∀ iv ∈ inputs, TotalChain iv.chain) →
    ∃ r, everyValid loc inputs = .ok r := by
  intro inputs
  induction inputs with
  | nil => exact fun _ => ⟨([], true), rfl⟩
  | cons iv rest ih =>
    intro h
    obtain ⟨⟨iv2, b⟩, hiv⟩ := inputValid_total loc iv (h iv (by simp))
    obtain ⟨⟨rest2, b2⟩, hrest⟩ := ih (fun x hx => h x (by simp [hx]))
    cases hE : everyValid loc (iv :: rest) with
    | ok r => exact ⟨r, rfl⟩
    | error e =>
      cases b with
      | true => simp [everyValid, hiv, hrest] at hE
      | false => simp [everyValid, hiv] at hE

/-- FormValidator.isValid never throws when every bound chain has total
callbacks: a passes-false verdict is ordinary control flow. -/
theorem formIsValid_total (loc : Local) (fs : FormState)
    (h : ∀ iv ∈ fs.inputs, TotalChain iv.chain) :
    ∃ r, formIsValid loc fs = .ok r := by
  obtain ⟨inputsA, hA⟩ := phaseA_total loc fs.data fs.inputs h
  have hA2 : ∀ iv ∈ inputsA, TotalChain iv.chain := by
    intro iv2 h2
    obtain ⟨iv, hiv, hch⟩ := phaseA_chains loc fs.data fs.inputs inputsA hA iv2 h2
    rw [hch]
    exact h iv hiv
  obtain ⟨⟨inputsB, valid⟩, hB⟩ := everyValid_total loc inputsA hA2
  cases hE : formIsValid loc fs with
  | ok r => exact ⟨r, rfl⟩
  | error e => simp [formIsValid, hA, hB] at hE

/-- A rule-chain entry with no resolved callback. -/
def ghostEntry : RuleEntry := ⟨"ghost", .undefined, none, none⟩

/-- Counterexample to claim C5: the entry named ghost has no callback, is
reached during the pass (its record reports run = true), and yet validate does
not throw, because the nullable latch set by the leading nullable rule on a
null value auto-passes the entry without ever checking its callback. -/
theorem claim_C5_counterexample :
    (runValidateFull defaultLocal "" true [mkEntry "nullable" .undefined, ghostEntry]
        .null .text =
      .ok ⟨true, [⟨"nullable", "nullable", .undefined, true, .null, true, none⟩,
                  ⟨"ghost", "ghost", .undefined, true, .null, true, none⟩], [], .null⟩)
  ∧ (runValidateFull defaultLocal "" true [mkEntry "nullable" .undefined, ghostEntry]
        .null .text).isOk = true :=
  ⟨rfl, rfl⟩

/-- Claim C5 (amended): an entry with a missing callback makes validate throw an
error naming the rule when it is reached while the nullable latch is unset (in
particular at the head of the chain); once the latch is set the entry is
auto-passed without the callback check; and when every entry resolves to a
callback that returns, neither validate nor form-level isValid throws, even
when callbacks report passes = false. -/
theorem claim_C5 :
    (∀ (name : String) (params : JSValue) (msg : Option String)
       (rest : List RuleEntry) (attr : String) (f : Bool) (v : JSValue)
       (t : InputType),
      runValidateFull defaultLocal attr f (⟨name, params, none, msg⟩ :: rest) v t =
        .error ("The rule " ++ name ++ " is not defined"))
  ∧ ((runValidateFull defaultLocal "" true [mkEntry "nullable" .undefined, ghostEntry]
        .null .text).isOk = true)
  ∧ (∀ (loc : Local) (attr : String) (f : Bool) (chain : List RuleEntry)
       (v : JSValue) (t : InputType), TotalChain chain →
      ∃ r, runValidateFull loc attr f chain v t = .ok r)
  ∧ (∀ (loc : Local) (fs : FormState), (∀ iv ∈ fs.inputs, TotalChain iv.chain) →
      ∃ r, formIsValid loc fs = .ok r) :=
  ⟨fun _ _ _ _ _ _ _ _ => rfl, rfl,
   fun loc attr f chain v t h => runValidateFull_total loc attr f chain v t h,
   fun loc fs h => formIsValid_total loc fs h⟩

/-- Witness for claim C5: the head-position missing callback throws the naming
error on a concrete chain, and a concrete all-resolved chain that fails
validation still returns without throwing. -/
theorem claim_C5_witness :
    (runValidateFull defaultLocal "" true [⟨"ghost", .undefined, none, none⟩] .null .text =
      .error ("The rule " ++ "ghost" ++ " is not defined"))
  ∧ (∃ r, runValidateFull defaultLocal "" true [mkEntry "required" .undefined]
        (.str "") .text = .ok r) :=
  ⟨claim_C5.1 "ghost" .undefined none [] "" true .null .text,
   claim_C5.2.2.1 defaultLocal "" true [mkEntry "required" .undefined] (.str "") .text
     (fun e he => by
        simp only [List.mem_singleton] at he
        subst he
        exact ⟨required, rfl, fun v p t => by cases v <;> exact ⟨_, rfl⟩⟩)⟩

/-- The form of end-to-end scenario A: one required rule on the field name,
bound to data in which that field is the empty string. -/
def fsC6 : FormState := mkForm [("name", "required")] (.obj [("name", .str "")])

/-- One isValid() call on the scenario-A form followed by a read of the errors
getter: the verdict and the flattened form-level error map. -/
def c6Outcome : Except String (Bool × List (String × String)) :=
  match formIsValid defaultLocal fsC6 with
  | .error e => .error e
  | .ok (fs2, b, _) =>
    match formErrors defaultLocal fs2.inputs with
    | .error e => .error e
    | .ok es => .ok (b, es)

/-- Counterexample to claim C6: the default English catalog message for the
required rule has no trailing period, so the error map holds the string
without the period that the claim asserts. -/
theorem claim_C6_counterexample :
    c6Outcome = .ok (false, [("name", "This field is required")])
    ∧ ¬ ("This field is required" = "This field is required.") :=
  ⟨rfl, by decide⟩

/-- Claim C6 (amended): for the input spec name required with bound data name
empty, isValid() returns false and the form-level error map binds name to the
default-catalog message, which reads This field is required without a trailing
period. -/
theorem claim_C6 :
    c6Outcome = .ok (false, [("name", "This field is required")]) := rfl

/-- Structure of a successful isValid() call: the event trace is the field
evaluations of all inputs, then the predicate invocations (a function of the
predicates and the data only), then the transition events; and the returned
latches come from the transition phase applied to the returned verdict. -/
theorem formIsValid_ok_spec (loc : Local) (fs fs2 : FormState) (b : Bool)
    (evs : List FEvent) (h : formIsValid loc fs = .ok (fs2, b, evs)) :
    evs = (fs.inputs.map (fun iv => FEvent.fieldEvaluated iv.name))
        ++ (predEvery fs.data fs.preds 0).2.map FEvent.predicateInvoked
        ++ (emitPhase b fs.emitOnPasses fs.emitOnFails).2
    ∧ fs2.emitOnPasses = (emitPhase b fs.emitOnPasses fs.emitOnFails).1.1
    ∧ fs2.emitOnFails = (emitPhase b fs.emitOnPasses fs.emitOnFails).1.2 := by
  simp only [formIsValid] at h
  cases hA : phaseA loc fs.data fs.inputs with
  | error e => simp [hA] at h
  | ok inputsA =>
    cases hB : everyValid loc inputsA with
    | error e => simp [hA, hB] at h
    | ok pr =>
      obtain ⟨inputsB, valid⟩ := pr
      simp only [hA, hB, Except.ok.injEq, Prod.mk.injEq] at h
      obtain ⟨hfs, hb, hevs⟩ := h
      subst hfs
      subst hb
      subst hevs
      exact ⟨rfl, rfl, rfl⟩

/-- The index of the first predicate rejecting the data, if any. -/
def firstFalseIdx (d : JSValue) : List FormPred → Option Nat
  | [] => none
  | p :: rest => if p d then (firstFalseIdx d rest).map (fun k => k + 1) else some 0

/-- When every predicate accepts, Array.every invokes all of them in order. -/
theorem predEvery_all_true (d : JSValue) :
    ∀ (preds : List FormPred) (i : Nat), (∀ p ∈ preds, p d = true) →
    (predEvery d preds i).2 = (List.range preds.length).map (fun k => i + k) := by
  intro preds
  induction preds with
  | nil => intro i _; simp [predEvery]
  | cons p rest ih =>
    intro i h
    have hp : p d = true := h p (by simp)
    have hrec := ih (i + 1) (fun q hq => h q (by simp [hq]))
    have hfun : (fun k => i + 1 + k) = (fun k => i + (k + 1)) := by
      funext k
      omega
    simp [predEvery, hp, hrec, List.range_succ_eq_map, List.map_map, Function.comp, hfun]

/-- A rejecting predicate stops Array.every: exactly the predicates up to and
including the first rejecting one are invoked, independent of what follows. -/
theorem predEvery_first_false (d : JSValue) :
    ∀ (pre : List FormPred) (p : FormPred) (post : List FormPred) (i : Nat),
    (∀ q ∈ pre, q d = true) → p d = false →
    (predEvery d (pre ++ p :: post) i).2 =
      (List.range (pre.length + 1)).map (fun k => i + k) := by
  intro pre
  induction pre with
  | nil =>
    intro p post i _ hp
    simp [predEvery, hp, List.range_succ]
  | cons q rest ih =>
    intro p post i h hp
    have hq : q d = true := h q (by simp)
    have hrec := ih p post (i + 1) (fun x hx => h x (by simp [hx])) hp
    have hfun : (fun k => i + 1 + k) = (fun k => i + (k + 1)) := by
      funext k
      omega
    simp [predEvery, hq, hrec, List.range_succ_eq_map, List.map_map, Function.comp, hfun]

/-- The boolean outcome of the predicate phase is the conjunction of all
predicate verdicts. -/
theorem predEvery_fst (d : JSValue) :
    ∀ (preds : List FormPred) (i : Nat),
    (predEvery d preds i).1 = preds.all (fun p => p d) := by
  intro preds
  induction preds with
  | nil => intro i; simp [predEvery]
  | cons p rest ih =>
    intro i
    cases hp : p d with
    | true => simp [predEvery, hp, ih]
    | false => simp [predEvery, hp]

/-- The two-predicate form refuting the no-short-circuit reading: the first
predicate rejects, the second accepts. -/
def fsC7 : FormState := ⟨[], .obj [], [fun _ => false, fun _ => true], [], true, true⟩

/-- Counterexample to claim C7: on a form with two predicates where the first
returns false, the isValid() trace invokes only predicate 0; predicate 1 is
never invoked, because Array.prototype.every short-circuits across the
with-callbacks. -/
theorem claim_C7_counterexample :
    ((formIsValid defaultLocal fsC7).map (fun r => r.2.2) =
      .ok [FEvent.predicateInvoked 0, FEvent.formFails])
    ∧ FEvent.predicateInvoked 1 ∉ [FEvent.predicateInvoked 0, FEvent.formFails] :=
  ⟨rfl, by simp⟩

/-- Claim C7 (amended): on every isValid() call the predicates run only after
every field validator has been evaluated, and which predicates run is a
function of the predicates and the bound data alone (so field failures cannot
suppress them); they are invoked in registration order but Array.every stops at
the first predicate returning false, so all are invoked exactly when none
before the end rejects. -/
theorem claim_C7 :
    (∀ (loc : Local) (fs fs2 : FormState) (b : Bool) (evs : List FEvent),
      formIsValid loc fs = .ok (fs2, b, evs) →
      evs = (fs.inputs.map (fun iv => FEvent.fieldEvaluated iv.name))
          ++ (predEvery fs.data fs.preds 0).2.map FEvent.predicateInvoked
          ++ (emitPhase b fs.emitOnPasses fs.emitOnFails).2)
  ∧ (∀ (d : JSValue) (preds : List FormPred), (∀ p ∈ preds, p d = true) →
      (predEvery d preds 0).2 = List.range preds.length)
  ∧ (∀ (d : JSValue) (pre : List FormPred) (p : FormPred) (post : List FormPred),
      (∀ q ∈ pre, q d = true) → p d = false →
      (predEvery d (pre ++ p :: post) 0).2 = List.range (pre.length + 1)) := by
  refine ⟨?_, ?_, ?_⟩
  · intro loc fs fs2 b evs h
    exact (formIsValid_ok_spec loc fs fs2 b evs h).1
  · intro d preds h
    simpa using predEvery_all_true d preds 0 h
  · intro d pre p post h hp
    simpa using predEvery_first_false d pre p post 0 h hp

/-- Step a form through one isValid() call at the default locale. -/
def stepForm (fs : FormState) : FormState :=
  match formIsValid defaultLocal fs with
  | .ok r => r.1
  | .error _ => fs

/-- The event trace of one isValid() call at the default locale. -/
def evsForm (fs : FormState) : List FEvent :=
  match formIsValid defaultLocal fs with
  | .ok r => r.2.2
  | .error _ => []

/-- Witness for claim C7: the trace of the two-predicate form decomposes into
field evaluations, predicate invocations and transition events as stated. -/
theorem claim_C7_witness :
    evsForm fsC7 = (fsC7.inputs.map (fun iv => FEvent.fieldEvaluated iv.name))
      ++ (predEvery fsC7.data fsC7.preds 0).2.map FEvent.predicateInvoked
      ++ (emitPhase false fsC7.emitOnPasses fsC7.emitOnFails).2 :=
  claim_C7.1 defaultLocal fsC7 (stepForm fsC7) false (evsForm fsC7) rfl

/-- The no-duplicate-names invariant over the bound inputs of a form. -/
def NamesNodup (inputs : List InputV) : Prop := (namesOf inputs).Nodup

/-- addInput drops the same-named input before pushing, so it preserves the
no-duplicate-names invariant. -/
theorem addInputF_nodup (l : List InputV) (iv : InputV) (h : NamesNodup l) :
    NamesNodup (addInputF l iv) := by
  have hsub : (namesOf (l.filter (fun x => !(x.name == iv.name)))).Sublist (namesOf l) :=
    List.Sublist.map _ (List.filter_sublist l)
  have hnd : (namesOf (l.filter (fun x => !(x.name == iv.name)))).Nodup :=
    List.Nodup.sublist hsub h
  have hni : iv.name ∉ namesOf (l.filter (fun x => !(x.name == iv.name))) := by
    intro hmem
    simp only [namesOf, List.mem_map, List.mem_filter] at hmem
    obtain ⟨x, ⟨hx1, hx2⟩, hx3⟩ := hmem
    rw [hx3] at hx2
    simp at hx2
  simp only [NamesNodup, addInputF, namesOf, List.map_append, List.map_cons,
    List.map_nil]
  rw [List.nodup_append]
  refine ⟨hnd, List.nodup_singleton _, ?_⟩
  intro a ha hb
  simp only [List.mem_singleton] at hb
  subst hb
  exact hni ha

/-- Folding a step that preserves a predicate preserves it. -/
theorem foldl_preserves {α β : Type _} (P : β → Prop) (f : β → α → β)
    (h : ∀ b a, P b → P (f b a)) :
    ∀ (l : List α) (b : β), P b → P (l.foldl f b) := by
  intro l
  induction l with
  | nil => exact fun b hb => hb
  | cons a rest ih => exact fun b hb => ih (f b a) (h b a hb)

/-- Wildcard re-expansion preserves the no-duplicate-names invariant: every
concrete field it adds goes through addInput. -/
theorem handleWildcardsF_nodup (fs : FormState) (h : NamesNodup fs.inputs) :
    NamesNodup (handleWildcardsF fs).inputs := by
  simp only [handleWildcardsF]
  refine foldl_preserves NamesNodup _ ?_ fs.wildcards fs.inputs h
  intro acc w hacc
  cases hdg : data_get fs.data (String.mk (takeBeforeDotStar w.1.data)) with
  | obj fields =>
    simp only [hdg]
    exact foldl_preserves NamesNodup _ (fun b a hb => addInputF_nodup b _ hb) fields acc hacc
  | str s => simpa [hdg] using hacc
  | num n => simpa [hdg] using hacc
  | nan => simpa [hdg] using hacc
  | bool b => simpa [hdg] using hacc
  | null => simpa [hdg] using hacc
  | undefined => simpa [hdg] using hacc
  | arr elems => simpa [hdg] using hacc

/-- The wildcard form of claim C8: the users.* pattern with a required chain. -/
def fsWildcard : FormState :=
  ⟨[], .obj [], [], [("users.*", [mkEntry "required" .undefined])], true, true⟩

/-- The nested payload of claim C8 merged twice into the bound data. -/
def dUsers : JSValue :=
  .obj [("users", .obj [("name", .str "Marie"), ("note", .str "x")])]

/-- Claim C8: setData and mergeData preserve the no-duplicate-names invariant
(expansion replaces same-named validators instead of accumulating them), and
merging the same nested payload twice against the users.* pattern yields
exactly one field validator per key of the resolved prefix object. -/
theorem claim_C8 :
    (∀ (fs : FormState), NamesNodup fs.inputs →
      ∀ (ops : List DataOp), NamesNodup (applyOps fs ops).inputs)
  ∧ (namesOf (mergeDataF (mergeDataF fsWildcard dUsers) dUsers).inputs =
      ["users.name", "users.note"]) := by
  constructor
  · intro fs h ops
    refine foldl_preserves (fun fs2 => NamesNodup fs2.inputs) applyOp ?_ ops fs h
    intro fs2 op h2
    cases op with
    | set d => exact handleWildcardsF_nodup _ h2
    | merge d => exact handleWildcardsF_nodup _ h2
  · rfl

/-- Witness for claim C8: the invariant applied to the concrete double merge of
the claim, starting from the empty (trivially duplicate-free) form. -/
theorem claim_C8_witness :
    NamesNodup (applyOps fsWildcard [DataOp.merge dUsers, DataOp.merge dUsers]).inputs :=
  claim_C8.1 fsWildcard (by simp [NamesNodup, namesOf, fsWildcard])
    [DataOp.merge dUsers, DataOp.merge dUsers]

/-- Number of form.fails transition events in a trace. -/
def countFails (evs : List FEvent) : Nat :=
  evs.countP (fun e => match e with | FEvent.formFails => true | _ => false)

/-- Number of form.passes transition events in a trace. -/
def countPasses (evs : List FEvent) : Nat :=
  evs.countP (fun e => match e with | FEvent.formPasses => true | _ => false)

/-- Field-evaluation events contribute no transition events. -/
theorem countFails_fieldEvs (l : List InputV) :
    countFails (l.map (fun iv => FEvent.fieldEvaluated iv.name)) = 0 := by
  induction l with
  | nil => rfl
  | cons iv rest ih => simp [countFails, List.countP_cons] at ih ⊢

/-- Predicate-invocation events contribute no transition events. -/
theorem countFails_predEvs (l : List Nat) :
    countFails (l.map FEvent.predicateInvoked) = 0 := by
  induction l with
  | nil => rfl
  | cons i rest ih => simp [countFails, List.countP_cons] at ih ⊢

/-- Field-evaluation events contribute no passes events. -/
theorem countPasses_fieldEvs (l : List InputV) :
    countPasses (l.map (fun iv => FEvent.fieldEvaluated iv.name)) = 0 := by
  induction l with
  | nil => rfl
  | cons iv rest ih => simp [countPasses, List.countP_cons] at ih ⊢

/-- Predicate-invocation events contribute no passes events. -/
theorem countPasses_predEvs (l : List Nat) :
    countPasses (l.map FEvent.predicateInvoked) = 0 := by
  induction l with
  | nil => rfl
  | cons i rest ih => simp [countPasses, List.countP_cons] at ih ⊢

/-- The transition phase fires form.fails exactly when the verdict fails and
the fail latch is open. -/
theorem countFails_emit (ok ep ef : Bool) :
    countFails (emitPhase ok ep ef).2 = if !ok && ef then 1 else 0 := by
  cases ok <;> cases ep <;> cases ef <;> simp [emitPhase, countFails]

/-- The transition phase fires form.passes exactly when the verdict passes and
the pass latch is open. -/
theorem countPasses_emit (ok ep ef : Bool) :
    countPasses (emitPhase ok ep ef).2 = if ok && ep then 1 else 0 := by
  cases ok <;> cases ep <;> cases ef <;> simp [emitPhase, countPasses]

/-- A failing verdict always leaves the fail latch closed afterwards. -/
theorem emit_latch_fails (ep ef : Bool) :
    (emitPhase false ep ef).1.2 = false := by
  cases ef <;> simp [emitPhase]

/-- The per-call transition count of isValid: derived for reuse. -/
theorem formIsValid_counts (loc : Local) (fs fs2 : FormState) (b : Bool)
    (evs : List FEvent) (h : formIsValid loc fs = .ok (fs2, b, evs)) :
    countFails evs = (if !b && fs.emitOnFails then 1 else 0)
    ∧ countPasses evs = (if b && fs.emitOnPasses then 1 else 0)
    ∧ (b = false → fs2.emitOnFails = false) := by
  obtain ⟨hevs, _, hef⟩ := formIsValid_ok_spec loc fs fs2 b evs h
  subst hevs
  refine ⟨?_, ?_, ?_⟩
  · have h1 := countFails_fieldEvs fs.inputs
    have h2 := countFails_predEvs (predEvery fs.data fs.preds 0).2
    have h3 := countFails_emit b fs.emitOnPasses fs.emitOnFails
    simp only [countFails] at h1 h2 h3 ⊢
    rw [List.countP_append, List.countP_append, h1, h2, h3]
    simp
  · have h1 := countPasses_fieldEvs fs.inputs
    have h2 := countPasses_predEvs (predEvery fs.data fs.preds 0).2
    have h3 := countPasses_emit b fs.emitOnPasses fs.emitOnFails
    simp only [countPasses] at h1 h2 h3 ⊢
    rw [List.countP_append, List.countP_append, h1, h2, h3]
    simp
  · intro hb
    subst hb
    rw [hef]
    exact emit_latch_fails fs.emitOnPasses fs.emitOnFails

/-- Claim C9: on every isValid() call, the form.fails callbacks fire exactly
when the verdict fails and the fail latch is open (symmetrically for
form.passes), and three isValid() calls in a row that all fail fire the fails
event exactly once, on the first call. -/
theorem claim_C9 :
    (∀ (loc : Local) (fs fs2 : FormState) (b : Bool) (evs : List FEvent),
      formIsValid loc fs = .ok (fs2, b, evs) →
      countFails evs = (if !b && fs.emitOnFails then 1 else 0)
      ∧ countPasses evs = (if b && fs.emitOnPasses then 1 else 0))
  ∧ (∀ (loc : Local) (s0 s1 s2 s3 : FormState) (e1 e2 e3 : List FEvent),
      s0.emitOnFails = true →
      formIsValid loc s0 = .ok (s1, false, e1) →
      formIsValid loc s1 = .ok (s2, false, e2) →
      formIsValid loc s2 = .ok (s3, false, e3) →
      countFails e1 = 1 ∧ countFails e2 = 0 ∧ countFails e3 = 0
      ∧ countFails e1 + countFails e2 + countFails e3 = 1) := by
  constructor
  · intro loc fs fs2 b evs h
    obtain ⟨h1, h2, _⟩ := formIsValid_counts loc fs fs2 b evs h
    exact ⟨h1, h2⟩
  · intro loc s0 s1 s2 s3 e1 e2 e3 h0 h1 h2 h3
    obtain ⟨c1, _, l1⟩ := formIsValid_counts loc s0 s1 false e1 h1
    obtain ⟨c2, _, l2⟩ := formIsValid_counts loc s1 s2 false e2 h2
    obtain ⟨c3, _, _⟩ := formIsValid_counts loc s2 s3 false e3 h3
    have hf1 : countFails e1 = 1 := by simp [c1, h0]
    have hef1 : s1.emitOnFails = false := l1 rfl
    have hf2 : countFails e2 = 0 := by simp [c2, hef1]
    have hef2 : s2.emitOnFails = false := l2 rfl
    have hf3 : countFails e3 = 0 := by simp [c3, hef2]
    exact ⟨hf1, hf2, hf3, by omega⟩

/-- The always-failing single-predicate form used to exercise claim C9. -/
def c9s0 : FormState := ⟨[], .obj [], [fun _ => false], [], true, true⟩

/-- Witness for claim C9: the concrete form fails on all three consecutive
isValid() calls and the fails event fires exactly once. -/
theorem claim_C9_witness :
    countFails (evsForm c9s0) = 1 ∧ countFails (evsForm (stepForm c9s0)) = 0
    ∧ countFails (evsForm (stepForm (stepForm c9s0))) = 0
    ∧ countFails (evsForm c9s0) + countFails (evsForm (stepForm c9s0))
        + countFails (evsForm (stepForm (stepForm c9s0))) = 1 :=
  claim_C9.2 defaultLocal c9s0 (stepForm c9s0) (stepForm (stepForm c9s0))
    (stepForm (stepForm (stepForm c9s0))) (evsForm c9s0)
    (evsForm (stepForm c9s0)) (evsForm (stepForm (stepForm c9s0)))
    rfl rfl rfl rfl

end Jev
